import Mathlib

/-!
# Verification of the InvoiceTool core (rule engine + mutation/undo pipeline)

Shallow embedding of the Python source (`app.py`, `modules/priority_manager.py`)
from the InvoiceTool_FullStack repository.

Modelling conventions:
* A session table (`df_staging`, a list of record dicts) is a `List Row`, where
  `Row` is an association list of column name to scalar `Value`.  The Python
  scalars that the modelled operations actually handle are strings, ints and
  `None`; `Value` covers exactly those.
* Pandas round trips (`DataFrame.from_records` / `to_dict('records')`) are
  treated as the identity; the rows produced by the loader and the modelled
  operations are key-uniform, which is the case in which the round trip is
  the identity.
* Python string operations `.strip()`, `.lower()`, `.upper()`, `.startswith`
  are modelled character-wise (`pyStrip`, `pyLower`, `pyUpper`,
  `pyStartsWith`); `pd.Series.str.contains(..., regex=False)` is plain
  substring containment (`strContains`).
* `pd.to_numeric(..., errors='coerce')` and Python `float(...)` are both
  modelled by `parseNum`, a decimal parser (optional sign, digits, optional
  fractional part) into the exact scaled-decimal type `DecNum`; unparseable
  strings give `Option.none`, which is the embedding of pandas `NaN` coercion
  / a raised `ValueError` caught by the surrounding code.  (The exponent
  notation accepted by the Python parsers, and binary-float rounding, are not
  modelled; no claim below depends on them.)
-/

namespace InvoiceTool

/-! ## String primitives (Python semantics) -/

/-- Whitespace characters recognised by Python `str.strip()` (ASCII part). -/
def isSpaceChar (c : Char) : Bool :=
  c = ' ' || c = '\t' || c = '\n' || c = '\r'

/-- Python `str.strip()`: drop whitespace at both ends. -/
def pyStrip (s : String) : String :=
  ⟨((s.data.dropWhile isSpaceChar).reverse.dropWhile isSpaceChar).reverse⟩

/-- Python `str.lower()` (ASCII). -/
def pyLower (s : String) : String := ⟨s.data.map Char.toLower⟩

/-- Python `str.upper()` (ASCII). -/
def pyUpper (s : String) : String := ⟨s.data.map Char.toUpper⟩

/-- Python `str.startswith(pre)`. -/
def pyStartsWith (s pre : String) : Bool := List.isPrefixOf pre.data s.data

/-- Helper for substring search: does `pat` occur inside `s`? -/
def strContainsAux (pat : List Char) : List Char → Bool
  | [] => pat.isEmpty
  | c :: rest => List.isPrefixOf pat (c :: rest) || strContainsAux pat rest

/-- `pd.Series.str.contains(pat, regex=False)` on one cell: substring test. -/
def strContains (s pat : String) : Bool := strContainsAux pat.data s.data

/-! ## Scalar values -/

/-- A Python scalar as stored in a session row dict: a string, an int, or
`None`.  (The modelled code paths never store other types.) -/
inductive Value where
  | str (s : String)
  | int (n : Int)
  | null
deriving DecidableEq, Repr

/-- Python `str(...)` on a stored scalar. -/
def valueToString : Value → String
  | .str s => s
  | .int n => toString n
  | .null => "None"

/-! ## Numeric coercion (`_safe_numeric_convert` and `float`) -/

/-- Digit-string to natural number. -/
def digitsToNat (l : List Char) : Nat :=
  l.foldl (fun acc c => acc * 10 + (c.toNat - '0'.toNat)) 0

/-- Parse an unsigned decimal: digits with at most one point, at least one
digit overall. Returns the numerator and the number of fractional digits. -/
def parseUnsigned (l : List Char) : Option (Nat × Nat) :=
  let intPart := l.takeWhile Char.isDigit
  let rest := l.dropWhile Char.isDigit
  match rest with
  | [] => if intPart.isEmpty then Option.none else some (digitsToNat intPart, 0)
  | '.' :: frac =>
      if frac.all Char.isDigit && !(intPart.isEmpty && frac.isEmpty) then
        some (digitsToNat (intPart ++ frac), frac.length)
      else Option.none
  | _ => Option.none

/-- An exact decimal number `num / 10 ^ shift`, the value a successful
numeric coercion denotes. -/
structure DecNum where
  num : Int
  shift : Nat
deriving DecidableEq, Repr

/-- Order on decimals by cross-multiplication with powers of ten. -/
def decLt (a b : DecNum) : Bool := a.num * (10 : Int) ^ b.shift < b.num * (10 : Int) ^ a.shift

/-- Non-strict order on decimals. -/
def decLe (a b : DecNum) : Bool := a.num * (10 : Int) ^ b.shift ≤ b.num * (10 : Int) ^ a.shift

/-- Decimal number parser standing in for `pd.to_numeric(errors='coerce')`
and Python `float(...)`: optional sign, digits, optional fractional part,
surrounding whitespace tolerated.  Failure is `Option.none` (pandas `NaN`). -/
def parseNum (s : String) : Option DecNum :=
  let t := (pyStrip s).data
  let sb : Int × List Char :=
    match t with
    | '-' :: rest => (-1, rest)
    | '+' :: rest => (1, rest)
    | _ => (1, t)
  (parseUnsigned sb.2).map (fun p => ⟨sb.1 * (p.1 : Int), p.2⟩)

/-- `_safe_numeric_convert`'s cleaning step: `str.replace(r'[$,]', '')` —
remove every dollar sign and comma. -/
def stripCurrency (s : String) : String :=
  ⟨s.data.filter (fun c => !(c = '$' || c = ','))⟩

/-! ## Rows -/

/-- A table row: the ordered key/value pairs of a session record dict. -/
abbrev Row := List (String × Value)

/-- Python `dict.get(k)`: first (unique) binding of `k`, if any. -/
def lookupField (r : Row) (k : String) : Option Value :=
  (r.find? (fun p => p.1 = k)).map (·.2)

/-- Python `d[k] = v`: replace the binding in place if the key exists,
otherwise append it (dict insertion order). -/
def setField (r : Row) (k : String) (v : Value) : Row :=
  match r with
  | [] => [(k, v)]
  | p :: rest => if p.1 = k then (k, v) :: rest else p :: setField rest k v

/-- `df.drop(columns=[k])` restricted to one row. -/
def removeField (r : Row) (k : String) : Row := r.filter (fun p => p.1 ≠ k)

/-- `str(r.get('_row_id'))` — the stringified row identifier. -/
def rowIdStr (r : Row) : String :=
  valueToString ((lookupField r "_row_id").getD Value.null)

/-- `int(r.get('_row_id', 0))` as used by `add_row`'s max computation; the
modelled rows store integer ids (non-integer ids would raise in Python). -/
def rowIdInt (r : Row) : Int :=
  match lookupField r "_row_id" with
  | some (.int n) => n
  | _ => 0

/-- `df[col].astype(str)` on one cell: a missing key becomes pandas `NaN`,
which `astype(str)` renders as `"nan"`. -/
def dfCellStr (r : Row) (c : String) : String :=
  match lookupField r c with
  | some v => valueToString v
  | Option.none => "nan"

/-- `_check_row_completeness`: a row is `"Incompleto"` iff some non-reserved
field (key not starting with `_`) has a stripped string form equal to `""` or
`"0"`. -/
def checkRowCompleteness (r : Row) : String :=
  if r.any (fun p =>
      !(pyStartsWith p.1 "_") &&
      (pyStrip (valueToString p.2) = "" || pyStrip (valueToString p.2) = "0"))
  then "Incompleto" else "Completo"

/-- `df.columns` for a record list: union of keys in first-appearance order
(`DataFrame.from_records` semantics). -/
def tableCols (data : List Row) : List String :=
  data.foldl (fun acc r => acc ++ (r.map (·.1)).filter (fun c => !acc.contains c)) []

/-! ## Rules and the rule engine (`modules/priority_manager.py`) -/

/-- A rule condition `{column, operator, value}`.  The operator is kept as the
raw string the JSON store holds (`"contains"`, `"equals"`, `">"`, `"<"`,
`">="`, `"<="`; anything else never matches). -/
structure Cond where
  column : String
  operator : String
  value : Value
deriving DecidableEq, Repr

/-- A stored rule.  `active` is the value of `rule.get('active', True)` (the
default already applied); `priority` is the raw `rule.get('priority')` result;
`reason` is `Option` so the `'Regla compleja'` default of
`rule.get('reason', ...)` stays observable. -/
structure Rule where
  active : Bool
  conditions : List Cond
  priority : Value
  reason : Option Value
deriving DecidableEq, Repr

/-- Numeric comparison dispatch for the `>`/`<`/`>=`/`<=` operators. -/
def numCmp (op : String) (a b : DecNum) : Bool :=
  if op = ">" then decLt b a
  else if op = "<" then decLt a b
  else if op = ">=" then decLe b a
  else if op = "<=" then decLe a b
  else false

/-- One condition against one row, given the table's column list `tcols`
(the in-loop `col not in df.columns` check): fail-closed evaluation from
`apply_priority_rules`. -/
def condEval (tcols : List String) (c : Cond) (r : Row) : Bool :=
  if tcols.contains c.column then
    let val := pyStrip (pyLower (valueToString c.value))
    let cell := pyStrip (pyLower (dfCellStr r c.column))
    if c.operator = "contains" then strContains cell val
    else if c.operator = "equals" then cell = val
    else if c.operator = ">" || c.operator = "<" ||
            c.operator = ">=" || c.operator = "<=" then
      match parseNum (stripCurrency (dfCellStr r c.column)), parseNum val with
      | some a, some b => numCmp c.operator a b
      | _, _ => false
    else false
  else false

/-- Does a rule fire on a row: it is active, has at least one condition, and
every condition holds (logical AND of the per-condition masks)? -/
def ruleApplies (tcols : List String) (rule : Rule) (r : Row) : Bool :=
  rule.active && !rule.conditions.isEmpty &&
  rule.conditions.all (fun c => condEval tcols c r)

/-- Applying one rule to one row: on a firing rule, `_priority` and then
`_priority_reason` are overwritten (`df.loc[mask, ...] = ...`). -/
def applyRuleRow (tcols : List String) (rule : Rule) (r : Row) : Row :=
  if ruleApplies tcols rule r then
    setField (setField r "_priority" rule.priority) "_priority_reason"
      (rule.reason.getD (Value.str "Regla compleja"))
  else r

/-- The `if '_priority_reason' not in df.columns` preamble of
`apply_priority_rules`. -/
def ensureReason (data : List Row) : List Row :=
  if (tableCols data).contains "_priority_reason" then data
  else data.map (fun r => setField r "_priority_reason" (Value.str ""))

/-- `apply_priority_rules(df)`: sequentially overlay the stored rules, later
rules overwriting earlier ones on the rows they match. -/
def applyPriorityRules (rules : List Rule) (data : List Row) : List Row :=
  if rules.isEmpty then data
  else
    let data1 := ensureReason data
    let tcols := tableCols data1
    rules.foldl (fun d rule => d.map (applyRuleRow tcols rule)) data1

/-- The per-row fold form of the sequential rule overlay. -/
def rowAfterRules (tcols : List String) (rules : List Rule) (r : Row) : Row :=
  rules.foldl (fun x rule => applyRuleRow tcols rule x) r

/-! ## `_recalculate_priorities` (base heuristic + user rules) -/

/-- The rule-engine context a recompute needs: the stored rule list, the
detected grouping column (`session['pay_group_col_name']`), and the
`enable_scf_intercompany` setting (default `True` already applied). -/
structure Ctx where
  rules : List Rule
  payCol : Option String
  enableBase : Bool
deriving DecidableEq, Repr

/-- The hardcoded base heuristic on one row (`np.select` branch order:
allow-set first, prefix second, else `Media`). -/
def baseRowSet (pc : String) (r : Row) : Row :=
  let pg := pyUpper (pyStrip (dfCellStr r pc))
  let pr : String × String :=
    if pg = "SCF" || pg = "INTERCOMPANY" then
      ("Alta", "Prioridad base (SCF/Intercompany)")
    else if pyStartsWith pg "PAY GROUP" then
      ("Baja", "Prioridad base (Pay Group)")
    else ("Media", "Prioridad base (Estándar)")
  setField (setField r "_priority" (Value.str pr.1)) "_priority_reason" (Value.str pr.2)

/-- The base result when the heuristic is disabled or no grouping column is
present. -/
def defaultBaseRow (r : Row) : Row :=
  setField (setField r "_priority" (Value.str "Media")) "_priority_reason"
    (Value.str "Prioridad base (Desactivada/No encontrada)")

/-- `_recalculate_priorities(df)`: base heuristic, then the user-rule
overlay. -/
def recalcPriorities (ctx : Ctx) (data : List Row) : List Row :=
  let base :=
    match ctx.payCol with
    | some pc =>
        if pc ≠ "" && (tableCols data).contains pc && ctx.enableBase then
          data.map (baseRowSet pc)
        else data.map defaultBaseRow
    | Option.none => data.map defaultBaseRow
  applyPriorityRules ctx.rules base

/-! ## History entries and session state (`app.py`) -/

/-- `session['history']` entries, one tagged variant per action kind.  Field
types follow what each route stores: `update` keeps the stringified row id,
`add` the fresh integer id, `delete` the full row and its positional index,
the bulk variants the per-row old values, `deleteColumn` the
`{'_row_id': ..., col: ...}` backup pairs. -/
inductive HEntry where
  | update (rid : String) (col : String) (oldVal newVal : Value)
  | add (rid : Int)
  | delete (deletedRow : Row) (originalIndex : Nat)
  | bulkUpdate (col : String) (newVal : Value) (changes : List (String × Value))
  | findReplace (col : String) (newVal : Value) (changes : List (String × Value))
  | bulkDelete (deletedRows : List Row)
  | bulkDeleteDuplicates (deletedRows : List Row)
  | deleteColumn (col : String) (restoreData : List (Value × Value))
deriving DecidableEq, Repr

/-- `UNDO_STACK_LIMIT` from `app.py`. -/
def UNDO_STACK_LIMIT : Nat := 15

/-- The bounded push used by `update_cell`, `add_row` and `delete_row`:
`history.append(entry); if len(history) > UNDO_STACK_LIMIT: history.pop(0)`. -/
def pushLimited (hist : List HEntry) (e : HEntry) : List HEntry :=
  let h := hist ++ [e]
  if h.length > UNDO_STACK_LIMIT then h.drop 1 else h

/-- One session's mutable state: the working table and the undo history. -/
structure State where
  data : List Row
  history : List HEntry
deriving DecidableEq, Repr

/-- Outcome of a mutation route: a new state, the `no_change` response, or an
error response (state unchanged in the latter two cases). -/
inductive OpResult where
  | success (st : State)
  | noChange
  | errorRes
deriving DecidableEq, Repr

/-! ## `add_row` -/

/-- Maximum of a nonempty integer list (Python `max`). -/
def listMax : List Int → Int
  | [] => 0
  | x :: xs => xs.foldl max x

/-- `max_id = max(int(r.get('_row_id',0)) for r in data) if data else 0;
new_id = max_id + 1`. -/
def newRowId (data : List Row) : Int :=
  (if data.isEmpty then 0 else listMax (data.map rowIdInt)) + 1

/-- `list(data[0].keys()) if data else ['_row_id', '_priority']`. -/
def colsOf (data : List Row) : List String :=
  match data with
  | [] => ["_row_id", "_priority"]
  | r :: _ => r.map (·.1)

/-- The reserved fields `add_row` writes over the blank dict, in `update`
order. -/
def reservedNewFields (newId : Int) : List (String × Value) :=
  [("_row_id", Value.int newId), ("_row_status", Value.str "Incompleto"),
   ("_priority", Value.str "Media"), ("_priority_reason", Value.str "Nueva Fila")]

/-- The fresh row `add_row` builds: every current column blank, then the four
reserved fields set. -/
def newRowOf (data : List Row) : Row :=
  (reservedNewFields (newRowId data)).foldl (fun row kv => setField row kv.1 kv.2)
    ((colsOf data).map (fun c => (c, Value.str "")))

/-- `add_row` route: append the fresh row, push an `add` entry (bounded).
No rule-engine recompute happens here. -/
def addRowOp (st : State) : State :=
  { data := st.data ++ [newRowOf st.data],
    history := pushLimited st.history (.add (newRowId st.data)) }

/-! ## `delete_row` -/

/-- `next((i for i, r in enumerate(data) if str(r.get('_row_id')) == rid), -1)`
followed by `data.pop(idx)`: remove the first row matching the predicate,
returning it, its index, and the remainder. -/
def deleteFirstBy (p : Row → Bool) : List Row → Option (Row × Nat × List Row)
  | [] => Option.none
  | r :: rs =>
      if p r then some (r, 0, rs)
      else (deleteFirstBy p rs).map (fun x => (x.1, x.2.1 + 1, r :: x.2.2))

/-- `delete_row` route: pop the first row whose stringified id matches, push a
`delete` entry carrying the row and its index (bounded).  No rule-engine
recompute happens here. -/
def deleteRowOp (st : State) (rid : String) : OpResult :=
  match deleteFirstBy (fun r => rowIdStr r = rid) st.data with
  | Option.none => .errorRes
  | some (row, idx, rest) =>
      .success { data := rest, history := pushLimited st.history (.delete row idx) }

/-! ## `update_cell` -/

/-- Result of the row scan inside `update_cell`. -/
inductive ScanRes where
  | notFound
  | noChange
  | changed (newData : List Row) (oldVal : Value)
deriving DecidableEq, Repr

/-- The `for fila in datos` loop of `update_cell`: find the first row with the
requested id; if the cell already holds the value report `no_change`,
otherwise write the cell, recompute `_row_status`, and stop. -/
def updateScan (rid col : String) (v : Value) : List Row → ScanRes
  | [] => .notFound
  | r :: rs =>
      if rowIdStr r = rid then
        let old := (lookupField r col).getD Value.null
        if old = v then .noChange
        else
          let r' := setField r col v
          .changed (setField r' "_row_status" (.str (checkRowCompleteness r')) :: rs) old
      else
        match updateScan rid col v rs with
        | .notFound => .notFound
        | .noChange => .noChange
        | .changed ds old => .changed (r :: ds) old

/-- `update_cell` route: scan, push an `update` entry (bounded), then re-run
`_recalculate_priorities` over the whole table. -/
def updateCell (ctx : Ctx) (st : State) (rid col : String) (v : Value) : OpResult :=
  match updateScan rid col v st.data with
  | .notFound => .errorRes
  | .noChange => .noChange
  | .changed ds old =>
      .success { data := recalcPriorities ctx ds,
                 history := pushLimited st.history (.update rid col old v) }

/-! ## `bulk_update` and `find_replace_in_selection` -/

/-- The row loop of `bulk_update`: rows in the target set whose cell differs
from the new value are rewritten (cell plus `_row_status`) and their old
values recorded, in table order. -/
def bulkScan (targets : List String) (col : String) (nv : Value) :
    List Row → List Row × List (String × Value)
  | [] => ([], [])
  | r :: rs =>
      let (ds, cs) := bulkScan targets col nv rs
      let rid := rowIdStr r
      if targets.contains rid then
        let old := (lookupField r col).getD Value.null
        if old ≠ nv then
          let r' := setField r col nv
          (setField r' "_row_status" (.str (checkRowCompleteness r')) :: ds, (rid, old) :: cs)
        else (r :: ds, cs)
      else (r :: ds, cs)

/-- `bulk_update` route: if any row changed, push a `bulk_update` entry
(unbounded append — no `UNDO_STACK_LIMIT` check here) and re-run the rule
engine; otherwise `no_change`. -/
def bulkUpdateOp (ctx : Ctx) (st : State) (targets : List String) (col : String)
    (nv : Value) : OpResult :=
  let p := bulkScan targets col nv st.data
  if p.2.isEmpty then .noChange
  else .success { data := recalcPriorities ctx p.1,
                  history := st.history ++ [.bulkUpdate col nv p.2] }

/-- The row loop of `find_replace_in_selection`: rows in the target set whose
cell's string form equals the search text are rewritten. -/
def frScan (targets : List String) (col : String) (findTxt : String) (rv : Value) :
    List Row → List Row × List (String × Value)
  | [] => ([], [])
  | r :: rs =>
      let (ds, cs) := frScan targets col findTxt rv rs
      let rid := rowIdStr r
      if targets.contains rid then
        let old := (lookupField r col).getD Value.null
        if valueToString old = findTxt then
          let r' := setField r col rv
          (setField r' "_row_status" (.str (checkRowCompleteness r')) :: ds, (rid, old) :: cs)
        else (r :: ds, cs)
      else (r :: ds, cs)

/-- `find_replace_in_selection` route: like `bulk_update`, with an unbounded
history append and a full recompute on change. -/
def findReplaceOp (ctx : Ctx) (st : State) (targets : List String) (col : String)
    (findTxt : String) (rv : Value) : OpResult :=
  let p := frScan targets col findTxt rv st.data
  if p.2.isEmpty then .noChange
  else .success { data := recalcPriorities ctx p.1,
                  history := st.history ++ [.findReplace col rv p.2] }

/-! ## `bulk_delete_rows`, `cleanup_duplicate_invoices`, `delete_column` -/

/-- `bulk_delete_rows` route: partition into kept/deleted by stringified id;
on a nonempty deletion push a `bulk_delete` entry holding the removed rows
inline (unbounded append, no recompute). -/
def bulkDeleteOp (st : State) (targets : List String) : OpResult :=
  let kept := st.data.filter (fun r => !targets.contains (rowIdStr r))
  let deleted := st.data.filter (fun r => targets.contains (rowIdStr r))
  if deleted.isEmpty then .noChange
  else .success { data := kept, history := st.history ++ [.bulkDelete deleted] }

/-- `_find_invoice_column`: first column whose lowered, stripped name is in
the fixed allow-list. -/
def findInvoiceColumn (data : List Row) : Option String :=
  (tableCols data).find? (fun c =>
    ["invoice #", "invoice number", "n° factura", "factura", "invoice id"].contains
      (pyStrip (pyLower c)))

/-- `df.duplicated(subset=[col], keep='first')` split: walk the rows keeping
first occurrences of each key value (`seen` accumulates them), collecting the
later duplicates. -/
def dupScan (col : String) (seen : List Value) : List Row → List Row × List Row
  | [] => ([], [])
  | r :: rs =>
      let v := (lookupField r col).getD Value.null
      if seen.contains v then
        let p := dupScan col seen rs
        (p.1, r :: p.2)
      else
        let p := dupScan col (v :: seen) rs
        (r :: p.1, p.2)

/-- `cleanup_duplicate_invoices` route: detect the invoice column (a missing
column raises inside the handler — error result), drop later duplicates, push
a `bulk_delete_duplicates` entry (unbounded, no recompute). -/
def cleanupDuplicatesOp (st : State) : OpResult :=
  match findInvoiceColumn st.data with
  | Option.none => .errorRes
  | some col =>
      let p := dupScan col [] st.data
      if p.2.isEmpty then .noChange
      else .success { data := p.1, history := st.history ++ [.bulkDeleteDuplicates p.2] }

/-- `delete_column` route: 404 if the column is absent; otherwise back up the
`(_row_id, value)` pairs, drop the column from every row, and push a
`delete_column` entry (unbounded, no recompute). -/
def deleteColumnOp (st : State) (col : String) : OpResult :=
  if (tableCols st.data).contains col then
    let backup := st.data.map (fun r =>
      ((lookupField r "_row_id").getD Value.null, (lookupField r col).getD Value.null))
    .success { data := st.data.map (fun r => removeField r col),
               history := st.history ++ [.deleteColumn col backup] }
  else .errorRes

/-! ## `undo_change` -/

/-- Python `list.insert(i, x)`: positions past the end clamp to append. -/
def pyInsert (i : Nat) (x : Row) : List Row → List Row
  | [] => [x]
  | y :: ys =>
      match i with
      | 0 => x :: y :: ys
      | Nat.succ j => y :: pyInsert j x ys

/-- Stable insertion of a row into a key-sorted list: the new row goes after
every row with a key less than or equal to its own. -/
def insSorted (k : Row → Int) (x : Row) : List Row → List Row
  | [] => [x]
  | y :: ys => if k y ≤ k x then y :: insSorted k x ys else x :: y :: ys

/-- `list.sort(key=...)` — stable sort by an integer key. -/
def sortByKey (k : Row → Int) (l : List Row) : List Row :=
  l.foldl (fun acc x => insSorted k x acc) []

/-- Undo of an `update` entry: restore the old value in the first matching
row and recompute its `_row_status`. -/
def restoreFirst (rid col : String) (oldv : Value) : List Row → List Row
  | [] => []
  | r :: rs =>
      if rowIdStr r = rid then
        let r' := setField r col oldv
        setField r' "_row_status" (.str (checkRowCompleteness r')) :: rs
      else r :: restoreFirst rid col oldv rs

/-- `restore_map` lookup: Python dict comprehensions keep the last binding of
a duplicated key. -/
def changesLookup (changes : List (String × Value)) (rid : String) : Option Value :=
  (changes.reverse.find? (fun p => p.1 = rid)).map (·.2)

/-- `restore_map` lookup for `delete_column` entries, whose keys are the
stringified `_row_id` values. -/
def restoreLookup (restoreData : List (Value × Value)) (rid : String) : Option Value :=
  (restoreData.reverse.find? (fun p => valueToString p.1 = rid)).map (·.2)

/-- The inverse application at the heart of `undo_change`, by action kind. -/
def undoApply (last : HEntry) (data : List Row) : List Row :=
  match last with
  | .update rid col oldv _ => restoreFirst rid col oldv data
  | .bulkUpdate col _ changes =>
      data.map (fun r =>
        match changesLookup changes (rowIdStr r) with
        | some ov => setField r col ov
        | Option.none => r)
  | .findReplace col _ changes =>
      data.map (fun r =>
        match changesLookup changes (rowIdStr r) with
        | some ov => setField r col ov
        | Option.none => r)
  | .add rid => data.filter (fun r => rowIdStr r ≠ toString rid)
  | .delete row idx => pyInsert idx row data
  | .bulkDelete rows => sortByKey rowIdInt (data ++ rows)
  | .bulkDeleteDuplicates rows => sortByKey rowIdInt (data ++ rows)
  | .deleteColumn col restoreData =>
      data.map (fun r =>
        match restoreLookup restoreData (rowIdStr r) with
        | some v => setField r col v
        | Option.none => r)

/-- `undo_change` route: 404 on an empty history; otherwise pop the latest
entry, apply its inverse, and re-run `_recalculate_priorities`. -/
def undoOp (ctx : Ctx) (st : State) : OpResult :=
  match st.history.getLast? with
  | Option.none => .errorRes
  | some last =>
      .success { data := recalcPriorities ctx (undoApply last st.data),
                 history := st.history.dropLast }

/-! ## Helper lemmas -/

theorem lookup_setField_self (r : Row) (k : String) (v : Value) :
    lookupField (setField r k v) k = some v := by
  induction r with
  | nil => simp [setField, lookupField, List.find?]
  | cons p rest ih =>
      by_cases h : p.1 = k
      · simp [setField, h, lookupField, List.find?]
      · simp only [setField, if_neg h]
        simpa [lookupField, List.find?, h] using ih

theorem lookup_setField_ne (r : Row) (k k' : String) (v : Value) (h : k' ≠ k) :
    lookupField (setField r k v) k' = lookupField r k' := by
  have hkk : ¬(k = k') := fun hh => h hh.symm
  induction r with
  | nil => simp [setField, lookupField, List.find?, hkk]
  | cons p rest ih =>
      by_cases hpk : p.1 = k
      · subst hpk
        simp [setField, lookupField, List.find?, hkk]
      · simp only [setField, if_neg hpk]
        by_cases hpk' : p.1 = k'
        · simp [lookupField, List.find?, hpk']
        · simp only [lookupField, List.find?] at ih ⊢
          simp [hpk', ih]

theorem lookup_blank_cols (cols : List String) (c : String) (v : Value) (h : c ∈ cols) :
    lookupField (cols.map (fun c => (c, v))) c = some v := by
  induction cols with
  | nil => cases h
  | cons d rest ih =>
      rcases List.mem_cons.mp h with h1 | h1
      · subst h1; simp [lookupField, List.find?]
      · by_cases hdc : d = c
        · subst hdc; simp [lookupField, List.find?]
        · simpa [lookupField, List.find?, hdc] using ih h1

theorem strContains_empty_pat (s : String) : strContains s "" = true := by
  show strContainsAux [] s.data = true
  induction s.data with
  | nil => rfl
  | cons c rest ih => simp [strContainsAux, List.isPrefixOf]

theorem pushLimited_length_le (hist : List HEntry) (e : HEntry)
    (h : hist.length ≤ UNDO_STACK_LIMIT) :
    (pushLimited hist e).length ≤ UNDO_STACK_LIMIT := by
  unfold pushLimited
  have hlen : (hist ++ [e]).length = hist.length + 1 := by simp
  by_cases hl : (hist ++ [e]).length > UNDO_STACK_LIMIT
  · simp only [if_pos hl, List.length_drop]
    omega
  · simp only [if_neg hl]
    omega

theorem pushLimited_evict (hist : List HEntry) (e : HEntry)
    (h : hist.length = UNDO_STACK_LIMIT) :
    pushLimited hist e = hist.drop 1 ++ [e] := by
  unfold pushLimited
  have hl : (hist ++ [e]).length > UNDO_STACK_LIMIT := by
    simp [List.length_append, h]
  rw [if_pos hl, List.drop_append_of_le_length]
  rw [h]; norm_num [UNDO_STACK_LIMIT]

theorem pushLimited_append (hist : List HEntry) (e : HEntry)
    (h : hist.length < UNDO_STACK_LIMIT) :
    pushLimited hist e = hist ++ [e] := by
  unfold pushLimited
  rw [if_neg]
  simp only [List.length_append, List.length_cons, List.length_nil]
  omega

theorem deleteFirstBy_mem (p : Row → Bool) (l : List Row) (row : Row) (idx : Nat)
    (rest : List Row) (h : deleteFirstBy p l = some (row, idx, rest)) :
    row ∈ l ∧ ∀ r ∈ rest, r ∈ l := by
  induction l generalizing row idx rest with
  | nil => simp [deleteFirstBy] at h
  | cons x xs ih =>
      by_cases hx : p x
      · simp only [deleteFirstBy, if_pos hx, Option.some.injEq, Prod.mk.injEq] at h
        obtain ⟨h1, _, h3⟩ := h
        subst h1; subst h3
        exact ⟨List.mem_cons_self _ _, fun r hr => List.mem_cons_of_mem _ hr⟩
      · simp only [deleteFirstBy, if_neg hx] at h
        cases hrec : deleteFirstBy p xs with
        | none => rw [hrec] at h; simp at h
        | some val =>
            obtain ⟨row', idx', rest'⟩ := val
            rw [hrec] at h
            simp only [Option.map_some', Option.some.injEq, Prod.mk.injEq] at h
            obtain ⟨h1, _, h3⟩ := h
            subst h1; subst h3
            obtain ⟨m1, m2⟩ := ih _ _ _ hrec
            refine ⟨List.mem_cons_of_mem _ m1, fun r hr => ?_⟩
            rcases List.mem_cons.mp hr with hr1 | hr1
            · subst hr1; exact List.mem_cons_self _ _
            · exact List.mem_cons_of_mem _ (m2 r hr1)

theorem deleteFirstBy_pyInsert (p : Row → Bool) (l : List Row) (row : Row) (idx : Nat)
    (rest : List Row) (h : deleteFirstBy p l = some (row, idx, rest)) :
    pyInsert idx row rest = l := by
  induction l generalizing row idx rest with
  | nil => simp [deleteFirstBy] at h
  | cons x xs ih =>
      by_cases hx : p x
      · simp only [deleteFirstBy, if_pos hx, Option.some.injEq, Prod.mk.injEq] at h
        obtain ⟨h1, h2, h3⟩ := h
        subst h1; subst h3; subst h2
        cases xs <;> rfl
      · simp only [deleteFirstBy, if_neg hx] at h
        cases hrec : deleteFirstBy p xs with
        | none => rw [hrec] at h; simp at h
        | some val =>
            obtain ⟨row', idx', rest'⟩ := val
            rw [hrec] at h
            simp only [Option.map_some', Option.some.injEq, Prod.mk.injEq] at h
            obtain ⟨h1, h2, h3⟩ := h
            subst h1; subst h3; subst h2
            simpa [pyInsert] using ih _ _ _ hrec

theorem foldl_max_init_le (l : List Int) (b : Int) : b ≤ l.foldl max b := by
  induction l generalizing b with
  | nil => simp
  | cons x xs ih => exact le_trans (le_max_left b x) (ih (max b x))

theorem mem_le_foldl_max (l : List Int) (b : Int) (x : Int) (h : x ∈ l) :
    x ≤ l.foldl max b := by
  induction l generalizing b with
  | nil => cases h
  | cons y ys ih =>
      rcases List.mem_cons.mp h with h1 | h1
      · subst h1; exact le_trans (le_max_right b x) (foldl_max_init_le ys _)
      · exact ih (max b y) h1

theorem foldl_max_mem (l : List Int) (b : Int) : l.foldl max b = b ∨ l.foldl max b ∈ l := by
  induction l generalizing b with
  | nil => left; rfl
  | cons x xs ih =>
      rcases ih (max b x) with h | h
      · rcases max_choice b x with hm | hm
        · left; rw [List.foldl_cons, h, hm]
        · right; rw [List.foldl_cons, h, hm]; exact List.mem_cons_self _ _
      · right; exact List.mem_cons_of_mem _ h

theorem listMax_mem (l : List Int) (h : l ≠ []) : listMax l ∈ l := by
  match l with
  | [] => exact absurd rfl h
  | x :: xs =>
      rcases foldl_max_mem xs x with h1 | h1
      · rw [listMax, h1]; exact List.mem_cons_self _ _
      · exact List.mem_cons_of_mem _ h1

theorem le_listMax (l : List Int) (x : Int) (h : x ∈ l) : x ≤ listMax l := by
  match l with
  | [] => cases h
  | y :: ys =>
      rcases List.mem_cons.mp h with h1 | h1
      · subst h1; exact foldl_max_init_le ys x
      · exact mem_le_foldl_max ys y x h1

theorem dupScan_mem (col : String) (seen : List Value) (l : List Row) (r : Row)
    (h : r ∈ (dupScan col seen l).1) : r ∈ l := by
  induction l generalizing seen with
  | nil => simp [dupScan] at h
  | cons x xs ih =>
      by_cases hx : seen.contains ((lookupField x col).getD Value.null)
      · simp only [dupScan, if_pos hx] at h
        exact List.mem_cons_of_mem _ (ih _ h)
      · simp only [dupScan, if_neg hx] at h
        rcases List.mem_cons.mp h with h1 | h1
        · subst h1; exact List.mem_cons_self _ _
        · exact List.mem_cons_of_mem _ (ih _ h1)

theorem foldl_map_rules (tcols : List String) (rules : List Rule) (d : List Row) :
    rules.foldl (fun d rule => d.map (applyRuleRow tcols rule)) d =
      d.map (rowAfterRules tcols rules) := by
  induction rules generalizing d with
  | nil => exact (List.map_id d).symm
  | cons q qs ih =>
      rw [List.foldl_cons, ih, List.map_map]
      rfl

theorem applyPriorityRules_eq_map (rules : List Rule) (data : List Row)
    (h : rules ≠ []) :
    applyPriorityRules rules data =
      (ensureReason data).map (rowAfterRules (tableCols (ensureReason data)) rules) := by
  unfold applyPriorityRules
  rw [if_neg (by simpa using h)]
  exact foldl_map_rules _ _ _

theorem mem_pyInsert (a x : Row) (i : Nat) (l : List Row) (h : a ∈ pyInsert i x l) :
    a = x ∨ a ∈ l := by
  induction l generalizing i with
  | nil =>
      simp only [pyInsert] at h
      rcases List.mem_singleton.mp h with h1
      exact Or.inl h1
  | cons y ys ih =>
      cases i with
      | zero =>
          simp only [pyInsert] at h
          rcases List.mem_cons.mp h with h1 | h1
          · exact Or.inl h1
          · exact Or.inr h1
      | succ j =>
          simp only [pyInsert] at h
          rcases List.mem_cons.mp h with h1 | h1
          · exact Or.inr (by rw [h1]; exact List.mem_cons_self _ _)
          · rcases ih j h1 with h2 | h2
            · exact Or.inl h2
            · exact Or.inr (List.mem_cons_of_mem _ h2)

theorem newRowId_cons (x : Row) (xs : List Row) :
    newRowId (x :: xs) = listMax ((x :: xs).map rowIdInt) + 1 := rfl

theorem lookup_newRowOf_id (data : List Row) :
    lookupField (newRowOf data) "_row_id" = some (Value.int (newRowId data)) := by
  show lookupField (setField (setField (setField (setField
      ((colsOf data).map (fun c => (c, Value.str ""))) "_row_id" (Value.int (newRowId data)))
      "_row_status" (Value.str "Incompleto")) "_priority" (Value.str "Media"))
      "_priority_reason" (Value.str "Nueva Fila")) "_row_id" = some (Value.int (newRowId data))
  rw [lookup_setField_ne _ _ _ _ (by decide), lookup_setField_ne _ _ _ _ (by decide),
    lookup_setField_ne _ _ _ _ (by decide), lookup_setField_self]

theorem lookup_newRowOf_status (data : List Row) :
    lookupField (newRowOf data) "_row_status" = some (Value.str "Incompleto") := by
  show lookupField (setField (setField (setField (setField
      ((colsOf data).map (fun c => (c, Value.str ""))) "_row_id" (Value.int (newRowId data)))
      "_row_status" (Value.str "Incompleto")) "_priority" (Value.str "Media"))
      "_priority_reason" (Value.str "Nueva Fila")) "_row_status" = some (Value.str "Incompleto")
  rw [lookup_setField_ne _ _ _ _ (by decide), lookup_setField_ne _ _ _ _ (by decide),
    lookup_setField_self]

theorem lookup_newRowOf_priority (data : List Row) :
    lookupField (newRowOf data) "_priority" = some (Value.str "Media") := by
  show lookupField (setField (setField (setField (setField
      ((colsOf data).map (fun c => (c, Value.str ""))) "_row_id" (Value.int (newRowId data)))
      "_row_status" (Value.str "Incompleto")) "_priority" (Value.str "Media"))
      "_priority_reason" (Value.str "Nueva Fila")) "_priority" = some (Value.str "Media")
  rw [lookup_setField_ne _ _ _ _ (by decide), lookup_setField_self]

theorem lookup_newRowOf_reason (data : List Row) :
    lookupField (newRowOf data) "_priority_reason" = some (Value.str "Nueva Fila") := by
  show lookupField (setField (setField (setField (setField
      ((colsOf data).map (fun c => (c, Value.str ""))) "_row_id" (Value.int (newRowId data)))
      "_row_status" (Value.str "Incompleto")) "_priority" (Value.str "Media"))
      "_priority_reason" (Value.str "Nueva Fila")) "_priority_reason" = some (Value.str "Nueva Fila")
  rw [lookup_setField_self]

/-! ## Claim theorems -/

/-- C9: the derived row status is `Incompleto` ("Incomplete") exactly when
some non-reserved field (name not starting with an underscore) has a string
form that, after trimming whitespace, is `""` or `"0"`.  In particular a
numeric `0` in any field marks the row incomplete, since
`pyStrip (valueToString (Value.int 0)) = "0"`. -/
theorem C9_row_status_incomplete_iff (r : Row) :
    checkRowCompleteness r = "Incompleto" ↔
      ∃ p ∈ r, pyStartsWith p.1 "_" = false ∧
        (pyStrip (valueToString p.2) = "" ∨ pyStrip (valueToString p.2) = "0") := by
  unfold checkRowCompleteness
  by_cases h : r.any (fun p =>
      !(pyStartsWith p.1 "_") &&
      (pyStrip (valueToString p.2) = "" || pyStrip (valueToString p.2) = "0")) = true
  · rw [if_pos h]
    simp only [List.any_eq_true, Bool.and_eq_true, Bool.or_eq_true, decide_eq_true_eq,
      Bool.not_eq_true'] at h
    exact ⟨fun _ => h, fun _ => rfl⟩
  · rw [if_neg h]
    simp only [List.any_eq_true, Bool.and_eq_true, Bool.or_eq_true, decide_eq_true_eq,
      Bool.not_eq_true'] at h
    exact ⟨fun hc => absurd hc (by decide), fun hex => absurd hex h⟩

/-- C8 counterexample: on an empty table, `add_row` assigns row id `1`
(`max_id` defaults to 0 and the new id is `max_id + 1`), not `0` as the claim
states. -/
theorem C8_counterexample :
    newRowId [] = 1 ∧
    lookupField (newRowOf []) "_row_id" = some (Value.int 1) ∧ (1 : Int) ≠ 0 := by
  decide

/-- C8 (amended): `add_row` assigns `max(existing row_ids) + 1` on a
non-empty table and `1` (not `0`) on an empty one, fills every non-reserved
column of the new row with the empty string, and sets `_row_status` to
`Incompleto` ("Incomplete"), `_priority` to `Media` ("Medium") and
`_priority_reason` to `Nueva Fila`. -/
theorem C8_add_row_contents (st : State) :
    (addRowOp st).data = st.data ++ [newRowOf st.data]
  ∧ lookupField (newRowOf st.data) "_row_id" = some (Value.int (newRowId st.data))
  ∧ lookupField (newRowOf st.data) "_row_status" = some (Value.str "Incompleto")
  ∧ lookupField (newRowOf st.data) "_priority" = some (Value.str "Media")
  ∧ lookupField (newRowOf st.data) "_priority_reason" = some (Value.str "Nueva Fila")
  ∧ (∀ c ∈ colsOf st.data,
      c ∉ ["_row_id", "_row_status", "_priority", "_priority_reason"] →
      lookupField (newRowOf st.data) c = some (Value.str ""))
  ∧ (st.data = [] → newRowId st.data = 1)
  ∧ (st.data ≠ [] → newRowId st.data = listMax (st.data.map rowIdInt) + 1) := by
  refine ⟨rfl, lookup_newRowOf_id _, lookup_newRowOf_status _, lookup_newRowOf_priority _,
    lookup_newRowOf_reason _, ?_, ?_, ?_⟩
  · intro c hc hnotres
    simp only [List.mem_cons, List.not_mem_nil, or_false, not_or] at hnotres
    obtain ⟨h1, h2, h3, h4⟩ := hnotres
    show lookupField (setField (setField (setField (setField
        ((colsOf st.data).map (fun c => (c, Value.str ""))) "_row_id"
        (Value.int (newRowId st.data)))
        "_row_status" (Value.str "Incompleto")) "_priority" (Value.str "Media"))
        "_priority_reason" (Value.str "Nueva Fila")) c = some (Value.str "")
    rw [lookup_setField_ne _ _ _ _ h4, lookup_setField_ne _ _ _ _ h3,
      lookup_setField_ne _ _ _ _ h2, lookup_setField_ne _ _ _ _ h1,
      lookup_blank_cols _ _ _ hc]
  · intro hnil; rw [hnil]; rfl
  · intro hne
    cases hd : st.data with
    | nil => exact absurd hd hne
    | cons x xs => rfl

/-- C8 witness: the amended statement evaluated on a concrete one-row table
(new id `max + 1 = 8`, the non-reserved column `vendor` blank). -/
theorem C8_add_row_contents_witness :
    lookupField (newRowOf [[("_row_id", Value.int 7), ("vendor", Value.str "v")]])
      "vendor" = some (Value.str "")
  ∧ newRowId [[("_row_id", Value.int 7), ("vendor", Value.str "v")]] =
      listMax ([[("_row_id", Value.int 7), ("vendor", Value.str "v")]].map rowIdInt) + 1 := by
  have h := C8_add_row_contents ⟨[[("_row_id", Value.int 7), ("vendor", Value.str "v")]], []⟩
  exact ⟨h.2.2.2.2.2.1 "vendor" (by decide) (by decide), h.2.2.2.2.2.2.2 (by decide)⟩

/-- C1 counterexample: ids are reused when the row holding the maximal id is
deleted.  On the table with ids `{0, 1}`, deleting row id `1` and then adding
a row assigns id `max({0}) + 1 = 1` again, an id assigned before. -/
theorem C1_counterexample :
    deleteRowOp ⟨[[("_row_id", Value.int 0)], [("_row_id", Value.int 1)]], []⟩ "1"
      = .success ⟨[[("_row_id", Value.int 0)]],
          [.delete [("_row_id", Value.int 1)] 1]⟩
  ∧ newRowId [[("_row_id", Value.int 0)]] = 1
  ∧ rowIdInt [("_row_id", Value.int 1)] = 1 := by
  decide

/-- C1 (amended): `add_row` computes `max(current row_ids) + 1`, so freshness
holds only when the deleted row did not hold the strict maximum: if some
surviving row has an id at least that of the deleted row, the id assigned by
a subsequent `add_row` is `max(pre-delete ids) + 1`, strictly greater than —
hence different from — every id present before the deletion. -/
theorem C1_no_reuse_unless_max_deleted (st : State) (rid : String) (row : Row)
    (idx : Nat) (rest : List Row)
    (hdel : deleteFirstBy (fun r => rowIdStr r = rid) st.data = some (row, idx, rest))
    (hnotmax : ∃ r' ∈ rest, rowIdInt row ≤ rowIdInt r') :
    deleteRowOp st rid = .success ⟨rest, pushLimited st.history (.delete row idx)⟩
  ∧ newRowId rest = listMax (st.data.map rowIdInt) + 1
  ∧ (∀ r ∈ st.data, rowIdInt r < newRowId rest)
  ∧ lookupField (newRowOf rest) "_row_id" = some (Value.int (newRowId rest)) := by
  obtain ⟨r', hr'mem, hr'le⟩ := hnotmax
  obtain ⟨hrowmem, hrestmem⟩ := deleteFirstBy_mem _ _ _ _ _ hdel
  have hins := deleteFirstBy_pyInsert _ _ _ _ _ hdel
  have hrest_ne : rest ≠ [] := List.ne_nil_of_mem hr'mem
  -- listMax over the surviving rows equals the pre-delete maximum
  have hmax_eq : listMax (rest.map rowIdInt) = listMax (st.data.map rowIdInt) := by
    apply le_antisymm
    · have hmem := listMax_mem (rest.map rowIdInt) (by simpa using hrest_ne)
      obtain ⟨r'', hr''mem, hr''eq⟩ := List.mem_map.mp hmem
      rw [← hr''eq]
      exact le_listMax _ _ (List.mem_map_of_mem _ (hrestmem _ hr''mem))
    · have hdata_ne : st.data ≠ [] := List.ne_nil_of_mem hrowmem
      have hmem := listMax_mem (st.data.map rowIdInt) (by simpa using hdata_ne)
      obtain ⟨r₀, hr₀mem, hr₀eq⟩ := List.mem_map.mp hmem
      rw [← hr₀eq]
      have : r₀ ∈ pyInsert idx row rest := by rw [hins]; exact hr₀mem
      rcases mem_pyInsert _ _ _ _ this with h1 | h1
      · calc rowIdInt r₀ = rowIdInt row := by rw [h1]
          _ ≤ rowIdInt r' := hr'le
          _ ≤ listMax (rest.map rowIdInt) := le_listMax _ _ (List.mem_map_of_mem _ hr'mem)
      · exact le_listMax _ _ (List.mem_map_of_mem _ h1)
  have hnew : newRowId rest = listMax (st.data.map rowIdInt) + 1 := by
    cases hr : rest with
    | nil => exact absurd hr hrest_ne
    | cons x xs => rw [← hr, ← hmax_eq]; rw [hr]; rfl
  refine ⟨by simp [deleteRowOp, hdel], hnew, ?_, lookup_newRowOf_id _⟩
  intro r hr
  rw [hnew]
  have := le_listMax (st.data.map rowIdInt) _ (List.mem_map_of_mem rowIdInt hr)
  omega

/-- C1 witness: the amended statement on the table with ids `{0, 1, 2}`,
deleting the non-maximal id `1`: the next id is `3`, fresh. -/
theorem C1_no_reuse_witness :
    deleteRowOp ⟨[[("_row_id", Value.int 0)], [("_row_id", Value.int 1)],
        [("_row_id", Value.int 2)]], []⟩ "1"
      = .success ⟨[[("_row_id", Value.int 0)], [("_row_id", Value.int 2)]],
          [.delete [("_row_id", Value.int 1)] 1]⟩
  ∧ newRowId [[("_row_id", Value.int 0)], [("_row_id", Value.int 2)]] =
      listMax ([[("_row_id", Value.int 0)], [("_row_id", Value.int 1)],
        [("_row_id", Value.int 2)]].map rowIdInt) + 1 := by
  have h := C1_no_reuse_unless_max_deleted
    ⟨[[("_row_id", Value.int 0)], [("_row_id", Value.int 1)],
      [("_row_id", Value.int 2)]], []⟩ "1"
    [("_row_id", Value.int 1)] 1 [[("_row_id", Value.int 0)], [("_row_id", Value.int 2)]]
    (by decide) ⟨[("_row_id", Value.int 2)], by decide, by decide⟩
  exact ⟨h.1, h.2.1⟩

/-- A one-field row with the given integer id, used for bulk counterexamples. -/
def idRow (i : Nat) : Row := [("_row_id", Value.int (Int.ofNat i))]

/-- A 51-row table of bare ids `0..50`. -/
def data51 : List Row := (List.range 51).map idRow

/-- The 51 stringified target ids `"0".."50"`. -/
def targets51 : List String := (List.range 51).map (fun i => toString i)

/-- C4 counterexample: a `bulk_delete` of 51 rows (above the claimed
threshold 50) stores the 51 removed rows inline in the history entry — the
entry is `bulkDelete` carrying the full row list, no external blob handle
exists anywhere in the code. -/
theorem C4_counterexample :
    bulkDeleteOp ⟨data51, []⟩ targets51 = .success ⟨[], [.bulkDelete data51]⟩
  ∧ data51.length = 51 ∧ 50 < 51 := by
  decide

/-- C4 (amended): `bulk_delete` always stores the removed rows inline in the
pushed history entry, whatever their number; no storage threshold or external
blob handling exists. -/
theorem C4_bulk_delete_always_inline (st : State) (targets : List String) (st' : State)
    (h : bulkDeleteOp st targets = .success st') :
    st'.data = st.data.filter (fun r => !targets.contains (rowIdStr r))
  ∧ st'.history = st.history ++
      [.bulkDelete (st.data.filter (fun r => targets.contains (rowIdStr r)))] := by
  simp only [bulkDeleteOp] at h
  split at h
  · exact absurd h (by simp)
  · rw [OpResult.success.injEq] at h
    subst h
    exact ⟨rfl, rfl⟩

/-- C4 witness: the amended statement on a concrete two-row table with one
row deleted. -/
theorem C4_bulk_delete_always_inline_witness :
    ({ data := [idRow 1], history := [HEntry.bulkDelete [idRow 0]] } : State).data
      = [idRow 0, idRow 1].filter (fun r => !(["0"] : List String).contains (rowIdStr r))
  ∧ ({ data := [idRow 1], history := [HEntry.bulkDelete [idRow 0]] } : State).history
      = ([] : List HEntry) ++
          [.bulkDelete ([idRow 0, idRow 1].filter (fun r => (["0"] : List String).contains (rowIdStr r)))] :=
  C4_bulk_delete_always_inline ⟨[idRow 0, idRow 1], []⟩ ["0"]
    ⟨[idRow 1], [HEntry.bulkDelete [idRow 0]]⟩ (by decide)

/-- The one-row table used in the C3 counterexample. -/
def rowB : Row :=
  [("_row_id", Value.int 0), ("a", Value.str ""), ("_priority", Value.str "Media"),
   ("_priority_reason", Value.str "w")]

/-- `rowB` after the C3 counterexample's bulk update and recompute. -/
def rowB' : Row :=
  [("_row_id", Value.int 0), ("a", Value.str "y"), ("_priority", Value.str "Media"),
   ("_priority_reason", Value.str "Prioridad base (Desactivada/No encontrada)"),
   ("_row_status", Value.str "Completo")]

/-- C3 counterexample: with the history already at the capacity
`UNDO_STACK_LIMIT = 15`, a `bulk_update` pushes a 16th entry and evicts
nothing — the bulk operations perform no capacity check, so the stack exceeds
15. -/
theorem C3_counterexample :
    bulkUpdateOp ⟨[], Option.none, true⟩ ⟨[rowB], List.replicate 15 (.add 99)⟩
        ["0"] "a" (.str "y")
      = .success ⟨[rowB'],
          List.replicate 15 (.add 99) ++ [.bulkUpdate "a" (.str "y") [("0", Value.str "")]]⟩
  ∧ (List.replicate 15 (HEntry.add 99)
      ++ [HEntry.bulkUpdate "a" (.str "y") [("0", Value.str "")]]).length = 16
  ∧ UNDO_STACK_LIMIT < 16 := by
  decide

/-- C3 (amended): the `UNDO_STACK_LIMIT = 15` capacity is enforced only by
`update_cell`, `add_row` and `delete_row` (append, then evict the oldest
entry when the length exceeds 15); the remaining mutation kinds append
without any capacity check, so the stack stays bounded only under the three
cell/row operations. -/
theorem C3_cap_only_on_cell_row_ops :
    (∀ st : State, st.history.length ≤ UNDO_STACK_LIMIT →
        (addRowOp st).history.length ≤ UNDO_STACK_LIMIT)
  ∧ (∀ (st : State) (rid : String) (st' : State), st.history.length ≤ UNDO_STACK_LIMIT →
        deleteRowOp st rid = .success st' → st'.history.length ≤ UNDO_STACK_LIMIT)
  ∧ (∀ (ctx : Ctx) (st : State) (rid col : String) (v : Value) (st' : State),
        st.history.length ≤ UNDO_STACK_LIMIT →
        updateCell ctx st rid col v = .success st' →
        st'.history.length ≤ UNDO_STACK_LIMIT)
  ∧ (∀ st : State, st.history.length = UNDO_STACK_LIMIT →
        (addRowOp st).history = st.history.drop 1 ++ [.add (newRowId st.data)]) := by
  refine ⟨fun st h => pushLimited_length_le _ _ h, ?_, ?_, fun st h => pushLimited_evict _ _ h⟩
  · intro st rid st' h hdel
    simp only [deleteRowOp] at hdel
    cases hrec : deleteFirstBy (fun r => rowIdStr r = rid) st.data with
    | none => rw [hrec] at hdel; exact absurd hdel (by simp)
    | some val =>
        obtain ⟨row, idx, rest⟩ := val
        rw [hrec] at hdel
        rw [OpResult.success.injEq] at hdel
        subst hdel
        exact pushLimited_length_le _ _ h
  · intro ctx st rid col v st' h hupd
    simp only [updateCell] at hupd
    cases hrec : updateScan rid col v st.data with
    | notFound => rw [hrec] at hupd; exact absurd hupd (by simp)
    | noChange => rw [hrec] at hupd; exact absurd hupd (by simp)
    | changed ds old =>
        rw [hrec] at hupd
        rw [OpResult.success.injEq] at hupd
        subst hupd
        exact pushLimited_length_le _ _ h

/-- C3 witness: the amended statement on a concrete state — a full stack of
15 entries stays at 15 after `add_row`, with the oldest entry evicted. -/
theorem C3_cap_witness :
    (addRowOp ⟨[], List.replicate 15 (.add 99)⟩).history.length ≤ UNDO_STACK_LIMIT
  ∧ (addRowOp ⟨[], List.replicate 15 (.add 99)⟩).history =
      (List.replicate 15 (HEntry.add 99)).drop 1 ++ [.add (newRowId [])] :=
  ⟨C3_cap_only_on_cell_row_ops.1 ⟨[], List.replicate 15 (.add 99)⟩ (by decide),
   C3_cap_only_on_cell_row_ops.2.2.2 ⟨[], List.replicate 15 (.add 99)⟩ (by decide)⟩

/-- The context with no stored rules, no grouping column, heuristic enabled. -/
def ctxEmpty : Ctx := ⟨[], Option.none, true⟩

/-- A row whose priority fields are stale with respect to `ctxEmpty` (the
recompute would set `Media` / the disabled-base reason). -/
def rowStale : Row :=
  [("_row_id", Value.int 0), ("a", Value.str "x"), ("_priority", Value.str "Alta"),
   ("_priority_reason", Value.str "z")]

/-- `rowStale` after a recompute under `ctxEmpty`. -/
def rowStaleFixed : Row :=
  [("_row_id", Value.int 0), ("a", Value.str "x"), ("_priority", Value.str "Media"),
   ("_priority_reason", Value.str "Prioridad base (Desactivada/No encontrada)")]

/-- A row that is a fixed point of the recompute under `ctxEmpty`. -/
def rowConsistent : Row :=
  [("_row_id", Value.int 0), ("a", Value.str "x"), ("_priority", Value.str "Media"),
   ("_priority_reason", Value.str "Prioridad base (Desactivada/No encontrada)")]

/-- C7 counterexample: `undo_change` re-runs the rule engine after
reinserting the deleted row, so when the pre-delete table carried priorities
that are stale with respect to the current rule context, `delete_row`
followed by `undo` does **not** reproduce the original table: the stale
`Alta`/`z` priority fields come back as `Media`/base reason. -/
theorem C7_counterexample :
    deleteRowOp ⟨[rowStale], []⟩ "0" = .success ⟨[], [.delete rowStale 0]⟩
  ∧ undoOp ctxEmpty ⟨[], [.delete rowStale 0]⟩ = .success ⟨[rowStaleFixed], []⟩
  ∧ [rowStaleFixed] ≠ [rowStale] := by
  decide

/-- C7 (amended): if the pre-delete table is a fixed point of the rule-engine
recompute and the history stack is strictly below its capacity (so the
delete's entry does not evict anything), then `delete_row` followed by
`undo` restores exactly the original table (the deleted row reinserted at its
original positional index) and the original history stack. -/
theorem C7_delete_undo_round_trip (ctx : Ctx) (st : State) (rid : String) (row : Row)
    (idx : Nat) (rest : List Row)
    (hroom : st.history.length < UNDO_STACK_LIMIT)
    (hcons : recalcPriorities ctx st.data = st.data)
    (hdel : deleteFirstBy (fun r => rowIdStr r = rid) st.data = some (row, idx, rest)) :
    deleteRowOp st rid = .success ⟨rest, st.history ++ [.delete row idx]⟩
  ∧ undoOp ctx ⟨rest, st.history ++ [.delete row idx]⟩ = .success ⟨st.data, st.history⟩ := by
  constructor
  · simp [deleteRowOp, hdel, pushLimited_append _ _ hroom]
  · have h1 : (st.history ++ [HEntry.delete row idx]).getLast? = some (.delete row idx) := by
      simp [List.getLast?_concat]
    simp only [undoOp, h1]
    have h2 : undoApply (.delete row idx) rest = st.data := by
      show pyInsert idx row rest = st.data
      exact deleteFirstBy_pyInsert _ _ _ _ _ hdel
    rw [h2, hcons, List.dropLast_concat]

/-- C7 witness: the round trip on a concrete consistent one-row table with an
empty history. -/
theorem C7_delete_undo_round_trip_witness :
    deleteRowOp ⟨[rowConsistent], []⟩ "0"
      = .success ⟨[], ([] : List HEntry) ++ [.delete rowConsistent 0]⟩
  ∧ undoOp ctxEmpty ⟨[], ([] : List HEntry) ++ [.delete rowConsistent 0]⟩
      = .success ⟨[rowConsistent], []⟩ :=
  C7_delete_undo_round_trip ctxEmpty ⟨[rowConsistent], []⟩ "0" rowConsistent 0 []
    (by decide) (by decide) (by decide)

theorem rowAfterRules_no_fire (tcols : List String) (rules : List Rule) (r : Row)
    (h : ∀ p ∈ rules, ruleApplies tcols p r = false) :
    rowAfterRules tcols rules r = r := by
  induction rules with
  | nil => rfl
  | cons p ps ih =>
      have hp : applyRuleRow tcols p r = r := by
        unfold applyRuleRow
        rw [h p (List.mem_cons_self _ _)]
        simp
      show List.foldl _ _ (p :: ps) = r
      rw [List.foldl_cons]
      show rowAfterRules tcols ps (applyRuleRow tcols p r) = r
      rw [hp]
      exact ih (fun p' hp' => h p' (List.mem_cons_of_mem _ hp'))

/-- C5: the user-rule overlay applies active rules sequentially in stored
order, overwriting `_priority`/`_priority_reason` on every matching row —
so among the rules that fire on a row, the one appearing last in the stored
order determines the row's final priority and reason (last-match-wins).
First conjunct: the table-level engine is the per-row sequential fold.
Second: if rule `q` fires on the row (as it stands at `q`'s turn) and no
later rule fires afterwards, the final fields are `q`'s. -/
theorem C5_last_match_wins :
    (∀ (rules : List Rule) (data : List Row), rules ≠ [] →
        applyPriorityRules rules data =
          (ensureReason data).map (rowAfterRules (tableCols (ensureReason data)) rules))
  ∧ (∀ (tcols : List String) (rs₁ rs₂ : List Rule) (q : Rule) (r : Row),
        ruleApplies tcols q (rowAfterRules tcols rs₁ r) = true →
        (∀ p ∈ rs₂, ruleApplies tcols p
            (applyRuleRow tcols q (rowAfterRules tcols rs₁ r)) = false) →
        lookupField (rowAfterRules tcols (rs₁ ++ q :: rs₂) r) "_priority" = some q.priority
      ∧ lookupField (rowAfterRules tcols (rs₁ ++ q :: rs₂) r) "_priority_reason"
          = some (q.reason.getD (Value.str "Regla compleja"))) := by
  constructor
  · exact fun rules data h => applyPriorityRules_eq_map rules data h
  · intro tcols rs₁ rs₂ q r hq hrest
    have hsplit : rowAfterRules tcols (rs₁ ++ q :: rs₂) r =
        rowAfterRules tcols rs₂ (applyRuleRow tcols q (rowAfterRules tcols rs₁ r)) := by
      unfold rowAfterRules
      rw [List.foldl_append]
      rfl
    have hfix := rowAfterRules_no_fire tcols rs₂
      (applyRuleRow tcols q (rowAfterRules tcols rs₁ r)) hrest
    have happ : applyRuleRow tcols q (rowAfterRules tcols rs₁ r) =
        setField (setField (rowAfterRules tcols rs₁ r) "_priority" q.priority)
          "_priority_reason" (q.reason.getD (Value.str "Regla compleja")) := by
      unfold applyRuleRow
      rw [hq]
      simp
    rw [hsplit, hfix, happ]
    constructor
    · rw [lookup_setField_ne _ _ _ _ (by decide), lookup_setField_self]
    · rw [lookup_setField_self]

/-- The one-row table used for the rule-engine witnesses. -/
def rowVendor : Row :=
  [("_row_id", Value.int 0), ("vendor", Value.str "Amazon"),
   ("_priority", Value.str "Media"), ("_priority_reason", Value.str "base")]

/-- An earlier rule matching `rowVendor`. -/
def ruleEarlier : Rule :=
  ⟨true, [⟨"vendor", "contains", Value.str "ama"⟩], Value.str "Alta", some (Value.str "regla 1")⟩

/-- A later rule also matching `rowVendor`, with a different priority. -/
def ruleLater : Rule :=
  ⟨true, [⟨"vendor", "contains", Value.str "zon"⟩], Value.str "Baja", some (Value.str "regla 2")⟩

/-- C5 witness: on a concrete row matched by two active rules with different
priorities, the later rule's priority and reason win. -/
theorem C5_last_match_wins_witness :
    lookupField (rowAfterRules ["vendor"] ([ruleEarlier] ++ ruleLater :: []) rowVendor)
        "_priority" = some (Value.str "Baja")
  ∧ lookupField (rowAfterRules ["vendor"] ([ruleEarlier] ++ ruleLater :: []) rowVendor)
        "_priority_reason" = some (Value.str "regla 2")
  ∧ applyPriorityRules [ruleEarlier, ruleLater] [rowVendor] =
      (ensureReason [rowVendor]).map
        (rowAfterRules (tableCols (ensureReason [rowVendor])) [ruleEarlier, ruleLater]) := by
  have h := C5_last_match_wins.2 ["vendor"] [ruleEarlier] [] ruleLater rowVendor
    (by decide) (fun p hp => absurd hp (List.not_mem_nil p))
  exact ⟨h.1, h.2, C5_last_match_wins.1 [ruleEarlier, ruleLater] [rowVendor] (by decide)⟩

/-- C6: condition evaluation is fail-closed and total.  `contains`/`equals`
compare the case-lowered, whitespace-stripped string forms; the numeric
operators compare after stripping `$` and `,` (the currency formatting the
code removes); a missing column, or a cell that does not parse to a number,
makes the condition evaluate to `false` (a non-match) rather than an error —
`condEval` is a total `Bool` function, the embedding of the `try/except` and
`errors='coerce'` protections. -/
theorem C6_condition_eval_fail_closed :
    (∀ (tcols : List String) (c : Cond) (r : Row),
        tcols.contains c.column = false → condEval tcols c r = false)
  ∧ (∀ (tcols : List String) (c : Cond) (r : Row),
        (c.operator = ">" ∨ c.operator = "<" ∨ c.operator = ">=" ∨ c.operator = "<=") →
        parseNum (stripCurrency (dfCellStr r c.column)) = Option.none →
        condEval tcols c r = false)
  ∧ (∀ (tcols : List String) (c : Cond) (r : Row),
        c.operator = "contains" →
        condEval tcols c r = (tcols.contains c.column &&
          strContains (pyStrip (pyLower (dfCellStr r c.column)))
            (pyStrip (pyLower (valueToString c.value)))))
  ∧ (∀ (tcols : List String) (c : Cond) (r : Row),
        c.operator = "equals" →
        condEval tcols c r = (tcols.contains c.column &&
          (pyStrip (pyLower (dfCellStr r c.column)) =
            pyStrip (pyLower (valueToString c.value)))))
  ∧ (∀ (tcols : List String) (c : Cond) (r : Row) (a b : DecNum),
        (c.operator = ">" ∨ c.operator = "<" ∨ c.operator = ">=" ∨ c.operator = "<=") →
        parseNum (stripCurrency (dfCellStr r c.column)) = some a →
        parseNum (pyStrip (pyLower (valueToString c.value))) = some b →
        condEval tcols c r = (tcols.contains c.column && numCmp c.operator a b)) := by
  refine ⟨?_, ?_, ?_, ?_, ?_⟩
  · intro tcols c r h
    unfold condEval
    rw [h, if_neg (by decide)]
  · intro tcols c r hop hparse
    unfold condEval
    by_cases hc : tcols.contains c.column
    · rcases hop with h | h | h | h <;>
        rw [hc, if_pos rfl, h, if_neg (by decide), if_neg (by decide), if_pos (by decide),
          hparse]
    · rw [Bool.not_eq_true] at hc
      rw [hc, if_neg (by decide)]
  · intro tcols c r hop
    unfold condEval
    by_cases hc : tcols.contains c.column
    · rw [hc, if_pos rfl, hop, if_pos rfl, Bool.true_and]
    · rw [Bool.not_eq_true] at hc
      rw [hc, if_neg (by decide), Bool.false_and]
  · intro tcols c r hop
    unfold condEval
    by_cases hc : tcols.contains c.column
    · rw [hc, if_pos rfl, hop, if_neg (by decide), if_pos rfl, Bool.true_and]
    · rw [Bool.not_eq_true] at hc
      rw [hc, if_neg (by decide), Bool.false_and]
  · intro tcols c r a b hop h1 h2
    unfold condEval
    by_cases hc : tcols.contains c.column
    · rcases hop with h | h | h | h <;>
        rw [hc, if_pos rfl, h, if_neg (by decide), if_neg (by decide), if_pos (by decide),
          h1, h2, Bool.true_and]
    · rw [Bool.not_eq_true] at hc
      rw [hc, if_neg (by decide), Bool.false_and]

/-- C6 witness: the fail-closed clauses on concrete inputs — a missing
column gives `false`; the unparseable cell `"n/a"` under `>` gives `false`;
`contains` on `"Amazon"` vs `"  AMA "` (case/whitespace-normalised) matches;
`>` on `"$1,250.50"` vs `"999"` compares numerically after stripping `$`/`,`. -/
theorem C6_condition_eval_witness :
    condEval ["vendor"] ⟨"amount", ">", Value.str "5"⟩ rowVendor = false
  ∧ condEval ["note"] ⟨"note", ">", Value.str "5"⟩ [("note", Value.str "n/a")] = false
  ∧ condEval ["vendor"] ⟨"vendor", "contains", Value.str "  AMA "⟩ rowVendor =
      (true && strContains "amazon" "ama")
  ∧ condEval ["amount"] ⟨"amount", ">", Value.str "999"⟩
      [("amount", Value.str "$1,250.50")] = (true && numCmp ">" ⟨125050, 2⟩ ⟨999, 0⟩) := by
  refine ⟨?_, ?_, ?_, ?_⟩
  · exact C6_condition_eval_fail_closed.1 ["vendor"] ⟨"amount", ">", Value.str "5"⟩
      rowVendor (by decide)
  · exact C6_condition_eval_fail_closed.2.1 ["note"] ⟨"note", ">", Value.str "5"⟩
      [("note", Value.str "n/a")] (Or.inl rfl) (by decide)
  · exact C6_condition_eval_fail_closed.2.2.1 ["vendor"]
      ⟨"vendor", "contains", Value.str "  AMA "⟩ rowVendor rfl
  · exact C6_condition_eval_fail_closed.2.2.2.2 ["amount"]
      ⟨"amount", ">", Value.str "999"⟩ [("amount", Value.str "$1,250.50")]
      ⟨125050, 2⟩ ⟨999, 0⟩ (Or.inl rfl) (by decide) (by decide)

/-- C10: an active rule whose single condition uses `contains` on an existing
column with a value whose stringified, lowered, stripped form is empty
matches every row (empty-substring containment always succeeds), so applying
it overwrites `_priority` and `_priority_reason` on every row of the table. -/
theorem C10_empty_contains_matches_all (rule : Rule) (data : List Row) (col : String)
    (v : Value)
    (hact : rule.active = true)
    (hcond : rule.conditions = [⟨col, "contains", v⟩])
    (hval : pyStrip (pyLower (valueToString v)) = "")
    (hcol : (tableCols (ensureReason data)).contains col = true) :
    (∀ r : Row, ruleApplies (tableCols (ensureReason data)) rule r = true)
  ∧ applyPriorityRules [rule] data =
      (ensureReason data).map (fun r =>
        setField (setField r "_priority" rule.priority) "_priority_reason"
          (rule.reason.getD (Value.str "Regla compleja"))) := by
  have happ : ∀ r : Row, ruleApplies (tableCols (ensureReason data)) rule r = true := by
    intro r
    unfold ruleApplies
    rw [hact, hcond]
    have hce : condEval (tableCols (ensureReason data)) ⟨col, "contains", v⟩ r = true := by
      unfold condEval
      rw [hcol, if_pos rfl, if_pos rfl]
      show strContains _ (pyStrip (pyLower (valueToString v))) = true
      rw [hval]
      exact strContains_empty_pat _
    simp [List.all_cons, hce]
  refine ⟨happ, ?_⟩
  rw [applyPriorityRules_eq_map [rule] data (by simp)]
  apply List.map_congr_left
  intro r _
  show applyRuleRow (tableCols (ensureReason data)) rule r = _
  unfold applyRuleRow
  rw [happ r]
  simp

/-- The whitespace-valued catch-all rule used in the C10 witness. -/
def ruleBlank : Rule :=
  ⟨true, [⟨"vendor", "contains", Value.str "   "⟩], Value.str "Alta", some (Value.str "todo")⟩

/-- C10 witness: a concrete whitespace-only `contains` rule matches the
concrete row and rewrites the whole one-row table. -/
theorem C10_empty_contains_witness :
    ruleApplies (tableCols (ensureReason [rowVendor])) ruleBlank rowVendor = true
  ∧ applyPriorityRules [ruleBlank] [rowVendor] =
      (ensureReason [rowVendor]).map (fun r =>
        setField (setField r "_priority" ruleBlank.priority) "_priority_reason"
          (ruleBlank.reason.getD (Value.str "Regla compleja"))) := by
  have h := C10_empty_contains_matches_all ruleBlank [rowVendor] "vendor"
    (Value.str "   ") rfl rfl (by decide) (by decide)
  exact ⟨h.1 rowVendor, h.2⟩

/-- C2 counterexample: `delete_row` does **not** re-run the rule engine — it
stores the kept rows unchanged, so after deleting a row from a table whose
remaining row carries a stale priority, the stored table disagrees with what
the rule engine would produce (it is not a fixed point of the recompute). -/
theorem C2_counterexample :
    deleteRowOp ⟨[rowStale, idRow 1], []⟩ "1"
      = .success ⟨[rowStale], [.delete (idRow 1) 1]⟩
  ∧ recalcPriorities ctxEmpty [rowStale] ≠ [rowStale] := by
  decide

/-- C2 (amended): only `update_cell`, `bulk_update` and `find_replace` end by
re-running the rule engine over the whole table before storing (their stored
table is `recalcPriorities` of the mutated rows); `add_row`, `delete_row`,
`bulk_delete`, `cleanup_duplicates` and `delete_column` store the mutated
rows as they are — every surviving row is kept verbatim, with no recompute. -/
theorem C2_recalc_partition :
    (∀ (ctx : Ctx) (st : State) (rid col : String) (v : Value) (ds : List Row) (old : Value),
        updateScan rid col v st.data = .changed ds old →
        updateCell ctx st rid col v =
          .success ⟨recalcPriorities ctx ds, pushLimited st.history (.update rid col old v)⟩)
  ∧ (∀ (ctx : Ctx) (st : State) (targets : List String) (col : String) (nv : Value),
        (bulkScan targets col nv st.data).2.isEmpty = false →
        bulkUpdateOp ctx st targets col nv =
          .success ⟨recalcPriorities ctx (bulkScan targets col nv st.data).1,
            st.history ++ [.bulkUpdate col nv (bulkScan targets col nv st.data).2]⟩)
  ∧ (∀ (ctx : Ctx) (st : State) (targets : List String) (col ft : String) (rv : Value),
        (frScan targets col ft rv st.data).2.isEmpty = false →
        findReplaceOp ctx st targets col ft rv =
          .success ⟨recalcPriorities ctx (frScan targets col ft rv st.data).1,
            st.history ++ [.findReplace col rv (frScan targets col ft rv st.data).2]⟩)
  ∧ (∀ st : State, (addRowOp st).data = st.data ++ [newRowOf st.data])
  ∧ (∀ (st : State) (rid : String) (row : Row) (idx : Nat) (rest : List Row),
        deleteFirstBy (fun r => rowIdStr r = rid) st.data = some (row, idx, rest) →
        deleteRowOp st rid = .success ⟨rest, pushLimited st.history (.delete row idx)⟩
        ∧ ∀ r ∈ rest, r ∈ st.data)
  ∧ (∀ (st : State) (targets : List String) (st' : State),
        bulkDeleteOp st targets = .success st' → ∀ r ∈ st'.data, r ∈ st.data)
  ∧ (∀ (st st' : State),
        cleanupDuplicatesOp st = .success st' → ∀ r ∈ st'.data, r ∈ st.data)
  ∧ (∀ (st : State) (col : String),
        (tableCols st.data).contains col = true →
        deleteColumnOp st col = .success ⟨st.data.map (fun r => removeField r col),
          st.history ++ [.deleteColumn col (st.data.map (fun r =>
            ((lookupField r "_row_id").getD Value.null,
             (lookupField r col).getD Value.null)))]⟩) := by
  refine ⟨?_, ?_, ?_, fun _ => rfl, ?_, ?_, ?_, ?_⟩
  · intro ctx st rid col v ds old h
    unfold updateCell
    rw [h]
  · intro ctx st targets col nv h
    simp only [bulkUpdateOp]
    rw [h, if_neg (by decide)]
  · intro ctx st targets col ft rv h
    simp only [findReplaceOp]
    rw [h, if_neg (by decide)]
  · intro st rid row idx rest h
    exact ⟨by simp [deleteRowOp, h], (deleteFirstBy_mem _ _ _ _ _ h).2⟩
  · intro st targets st' h
    simp only [bulkDeleteOp] at h
    split at h
    · exact absurd h (by simp)
    · rw [OpResult.success.injEq] at h
      subst h
      intro r hr
      exact (List.mem_filter.mp hr).1
  · intro st st' h
    simp only [cleanupDuplicatesOp] at h
    split at h
    · exact absurd h (by simp)
    · split at h
      · exact absurd h (by simp)
      · rw [OpResult.success.injEq] at h
        subst h
        intro r hr
        exact dupScan_mem _ [] st.data r hr
  · intro st col h
    unfold deleteColumnOp
    rw [h, if_pos rfl]

/-- The result row of the C2 witness's `update_cell` scan. -/
def updRow : Row :=
  [("_row_id", Value.int 0), ("a", Value.str "q"), ("_priority", Value.str "Media"),
   ("_priority_reason", Value.str "Prioridad base (Desactivada/No encontrada)"),
   ("_row_status", Value.str "Completo")]

/-- C2 witness: the partition on concrete states — `update_cell` stores the
recomputed table, `delete_row` stores the kept rows verbatim. -/
theorem C2_recalc_partition_witness :
    updateCell ctxEmpty ⟨[rowConsistent], []⟩ "0" "a" (Value.str "q") =
      .success ⟨recalcPriorities ctxEmpty [updRow],
        pushLimited [] (.update "0" "a" (Value.str "x") (Value.str "q"))⟩
  ∧ deleteRowOp ⟨[rowConsistent, idRow 1], []⟩ "1" =
      .success ⟨[rowConsistent], pushLimited [] (.delete (idRow 1) 1)⟩ :=
  ⟨C2_recalc_partition.1 ctxEmpty ⟨[rowConsistent], []⟩ "0" "a" (Value.str "q")
      [updRow] (Value.str "x") (by decide),
   (C2_recalc_partition.2.2.2.2.1 ⟨[rowConsistent, idRow 1], []⟩ "1" (idRow 1) 1
      [rowConsistent] (by decide)).1⟩

end InvoiceTool
